import Mathlib

/-!
Verification of the command-distribution core of `miniccc`
(`src/miniccc/command.go`), shallowly embedded in Lean 4.

Modelling conventions:
* Go `int` and `int64` become `Int` (no arithmetic in this file comes close
  to overflowing a 64-bit counter, and the Go code never relies on wraparound).
* `time.Time` and `time.Duration` become `Int`, measured in seconds.  An
  absolute instant is `day * 86400 + secondOfDay`, with `0` the zero
  `time.Time` (so `IsZero` is `= 0`, `After` is `>`, and subtraction of
  instants yields a duration).
* The global `commands map[int]*Command` ledger becomes a function
  `Int → Option Command`; Go map iteration order is irrelevant for every
  loop modelled here because each iteration reads and writes only its own
  key, which is argued at the corresponding definition.
* The unexported `checkedIn` field is part of the `Command` record; the
  gob encoder's output is modelled by the projection onto the exported
  fields only, which is exactly what `encoding/gob` serializes.
-/

set_option linter.dupNamespace false

/-- The `Client` record as used by `Filter` (`getFilter`, command.go:524-534):
client id, hostname, architecture, OS data and IP/MAC lists. -/
structure Client where
  CID : Int
  Hostname : String
  Arch : String
  OS : String
  OSVer : String
  CSDVer : String
  EditionID : String
  IP : List String
  MAC : List String
deriving DecidableEq

/-- The `Command` struct (command.go:26-70).  `Type` is renamed `Typ`
(`Type` is reserved in Lean); the unexported `checkedIn` field is kept. -/
structure Command where
  ID : Int
  Typ : Int
  Record : Bool
  Command : List String
  FilesSend : List String
  FilesRecv : List String
  LogLevel : String
  LogPath : String
  Filter : List Client
  checkedIn : List Int
  ExpireClients : Int
  ExpireStarted : Int
  ExpireDuration : Int
  ExpireTime : Int
deriving DecidableEq

/-- The global `commands map[int]*Command` ledger (command.go:85). -/
abbrev Ledger : Type := Int → Option Command

/-- `getCommandID` (command.go:135-142): increment the counter and return it.
State-passing form: from counter `s`, the returned id and the new counter are
both `s + 1`. -/
def getCommandID (s : Int) : Int × Int := (s + 1, s + 1)

/-- `checkMaxCommandID` (command.go:149-157): raise the counter to `id` if
`id` exceeds it, i.e. set it to the max of the two. -/
def checkMaxCommandID (id : Int) (s : Int) : Int :=
  if id > s then id else s

/-- One operation on the ID allocator: a `getCommandID` call (`alloc`) or a
`checkMaxCommandID id` call (`reconcile id`). -/
inductive AllocOp where
  | alloc : AllocOp
  | reconcile (x : Int) : AllocOp
deriving DecidableEq

/-- Effect of one allocator operation on the counter. -/
def stepCounter (s : Int) : AllocOp → Int
  | .alloc => (getCommandID s).2
  | .reconcile x => checkMaxCommandID x s

/-- Counter after running a sequence of allocator operations from counter `s`. -/
def runCounter (s : Int) (ops : List AllocOp) : Int :=
  ops.foldl stepCounter s

/-- The id returned by an `alloc` at position `i` of `ops`, running from
counter 0 (the zero value of `commandCounter`): `getCommandID` returns the
counter after the increment. -/
def allocRet (ops : List AllocOp) (i : Nat) : Int :=
  (getCommandID (runCounter 0 (ops.take i))).1

/-- Modelled from the spec: the inbound-map reconciliation pass.  The caller
of `checkMaxCommandID` is not part of `command.go` (the function has no
caller in this file); per the spec, `reconcile` "must be called for every
command ID encountered in an inbound peer map before any local allocation
proceeds".  This definition runs `checkMaxCommandID` over every id of an
inbound batch. -/
def processInboundIDs (s : Int) (batch : List (Int × Command)) : Int :=
  batch.foldl (fun acc p => checkMaxCommandID p.1 acc) s

/-- The per-entry body of `updateCommandQueueProcessor`'s merge loop
(command.go:593-600): if the ledger already holds key `k`, the inbound
record `v` is installed with its `checkedIn` replaced by the existing
entry's; otherwise `v` is installed as new.  Only key `k` changes. -/
def mergeInstall (m : Ledger) (k : Int) (v : Command) : Ledger :=
  let v' : Command :=
    match m k with
    | some w => { v with checkedIn := w.checkedIn }
    | none => v
  fun j => if j = k then some v' else m j

/-- The whole merge loop of `updateCommandQueueProcessor` (command.go:588-601)
over one inbound map, given as a list of key/record pairs (a Go map, so keys
are distinct; each iteration touches only its own key, making the Go
iteration order irrelevant).  The `commandGetFiles` call only fetches files
and never touches the ledger, so it does not appear here. -/
def updateCommandsMerge (m : Ledger) (batch : List (Int × Command)) : Ledger :=
  batch.foldl (fun acc p => mergeInstall acc p.1 p.2) m

/-- The expiry test applied to one command by `expireReaper`
(command.go:105-122): count branch when `ExpireClients != 0`, else duration
branch when `ExpireDuration != 0`, else absolute-time branch when
`ExpireTime` is non-zero.  `time.Since(v.ExpireStarted)` is `now`
minus `ExpireStarted` with the tick treated as one instant `now`. -/
def expireCheck (now : Int) (v : Command) : Bool :=
  if v.ExpireClients ≠ 0 then
    decide ((v.checkedIn.length : Int) ≥ v.ExpireClients)
  else if v.ExpireDuration ≠ 0 then
    decide (now - v.ExpireStarted > v.ExpireDuration)
  else if v.ExpireTime ≠ 0 then
    decide (now > v.ExpireTime)
  else
    false

/-- One tick of `expireReaper` (command.go:103-123): scan the ledger and
delete every command passing `expireCheck`.  Deleting inside the Go `range`
is sound key-by-key (each decision reads only that entry), so a tick is a
pointwise filter. -/
def expireReaperTick (now : Int) (m : Ledger) : Ledger :=
  fun k =>
    match m k with
    | some v => if expireCheck now v then none else some v
    | none => none

/-- `commandCheckIn` (command.go:127-133): append `cid` to the command's
`checkedIn` log when the id is present, otherwise do nothing. -/
def commandCheckIn (m : Ledger) (id : Int) (cid : Int) : Ledger :=
  match m id with
  | some c => fun j => if j = id then some { c with checkedIn := c.checkedIn ++ [cid] } else m j
  | none => m

/-- `commandResubmit` (command.go:195-215), state-passing in the ledger and
the id counter.  On a known id, a fresh command is built listing exactly the
fields of the Go composite literal (command.go:199-209); every omitted field
gets its Go zero value.  Returns the new ledger, the new counter and the
response string. -/
def commandResubmit (m : Ledger) (counter : Int) (id : Int) :
    Ledger × Int × String :=
  match m id with
  | some c =>
    let nid := (getCommandID counter).1
    let nc : Command :=
      { ID := nid
        Typ := c.Typ
        Record := c.Record
        Command := c.Command
        FilesSend := c.FilesSend
        FilesRecv := c.FilesRecv
        LogLevel := c.LogLevel
        LogPath := c.LogPath
        Filter := c.Filter
        checkedIn := []
        ExpireClients := 0
        ExpireStarted := 0
        ExpireDuration := 0
        ExpireTime := 0 }
    (fun j => if j = nid then some nc else m j, (getCommandID counter).2,
      "command " ++ toString id ++ " resubmitted as command " ++ toString nid)
  | none =>
    (m, counter, "command " ++ toString id ++ " not found")

/-- The exported (gob-visible) fields of `Command`.  `encoding/gob`
serializes exported fields only, so the unexported `checkedIn`
(command.go:60-63: "leave this private as we don't want to bother sending
this downstream") never appears on the wire. -/
structure PublicCommand where
  ID : Int
  Typ : Int
  Record : Bool
  Command : List String
  FilesSend : List String
  FilesRecv : List String
  LogLevel : String
  LogPath : String
  Filter : List Client
  ExpireClients : Int
  ExpireStarted : Int
  ExpireDuration : Int
  ExpireTime : Int
deriving DecidableEq

/-- Projection of a command onto its exported fields. -/
def publicPart (c : Command) : PublicCommand :=
  { ID := c.ID
    Typ := c.Typ
    Record := c.Record
    Command := c.Command
    FilesSend := c.FilesSend
    FilesRecv := c.FilesRecv
    LogLevel := c.LogLevel
    LogPath := c.LogPath
    Filter := c.Filter
    ExpireClients := c.ExpireClients
    ExpireStarted := c.ExpireStarted
    ExpireDuration := c.ExpireDuration
    ExpireTime := c.ExpireTime }

/-- `encodeCommands` (command.go:217-227) up to the gob wire format: the
decoded form of the encoded ledger is the ledger with every record reduced
to its exported fields (gob omits the unexported `checkedIn`). -/
def encodeCommands (m : Ledger) : Int → Option PublicCommand :=
  fun k => (m k).map publicPart

/-- Go's `unicode.IsSpace` restricted to Latin-1 (the test used by
`strings.Fields`): space, tab, newline, vertical tab, form feed, carriage
return, NEL and NBSP. -/
def goIsSpace (c : Char) : Bool :=
  c = ' ' || c = '\t' || c = '\n' || c = '\x0B' || c = '\x0C' || c = '\r' ||
  c = '\u0085' || c = ' '

/-- Worker for `goFields`: accumulate the current field (reversed) while
walking the characters, emitting a field at each whitespace run boundary. -/
def fieldsAux (cur : List Char) : List Char → List String
  | [] => if cur = [] then [] else [⟨cur.reverse⟩]
  | c :: rest =>
    if goIsSpace c then
      if cur = [] then fieldsAux [] rest
      else (⟨cur.reverse⟩ : String) :: fieldsAux [] rest
    else fieldsAux (c :: cur) rest

/-- `strings.Fields` (used at command.go:310-311, 338, 365, 521-522, 647):
split a string around runs of whitespace, returning the non-empty fields. -/
def goFields (s : String) : List String := fieldsAux [] s.toList

/-- `strings.HasPrefix(v, "\"")` for the one-character quote pattern used by
`fieldsQuoteEscape` (command.go:660): the first character is a double quote.
(Go indexes bytes, but the quote is ASCII, so bytes and characters agree.) -/
def startsWithQuote (v : String) : Bool := v.toList.head? == some '"'

/-- `strings.HasSuffix(v, "\"")` for the one-character quote pattern used by
`fieldsQuoteEscape` (command.go:653): the last character is a double quote. -/
def endsWithQuote (v : String) : Bool := v.toList.getLast? == some '"'

/-- Go `v[1:]` as used at command.go:662 (only ever applied when `v` starts
with the ASCII quote, so dropping one byte is dropping one character). -/
def dropFirstChar (v : String) : String := ⟨v.toList.tail⟩

/-- Go `v[:len(v)-1]` as used at command.go:655 (only ever applied when `v`
ends with the ASCII quote). -/
def dropLastChar (v : String) : String := ⟨v.toList.dropLast⟩

/-- The field loop of `fieldsQuoteEscape` (command.go:649-667).  State:
`trace` (inside a quoted run) and `temp` (the accumulated quoted text).
In trace mode, a field ending in a quote closes the run and emits
`temp ++ " " ++ field-without-final-quote`; any other field is folded into
`temp`.  Out of trace mode, a field starting with a quote opens a run with
`temp = field-without-leading-quote`; any other field is emitted as is.
Leftover `temp` at the end of input is discarded, as in the Go loop. -/
def fqeAux : Bool → String → List String → List String
  | _, _, [] => []
  | true, temp, v :: vs =>
    if endsWithQuote v then
      (temp ++ " " ++ dropLastChar v) :: fqeAux false "" vs
    else
      fqeAux true (temp ++ " " ++ v) vs
  | false, temp, v :: vs =>
    if startsWithQuote v then
      fqeAux true (dropFirstChar v) vs
    else
      v :: fqeAux false temp vs

/-- `fieldsQuoteEscape` (command.go:646-669): split on whitespace like
`strings.Fields`, but group quoted fields. -/
def fieldsQuoteEscape (input : String) : List String :=
  fqeAux false "" (goFields input)

/-- The `expire_responses` value computed at command.go:273-277: the result
of `strconv.Atoi` on the form field, which is 0 when parsing fails (an empty
or malformed field), passed here as the parse outcome `pec`. -/
def formExpireClients (pec : Option Int) : Int :=
  match pec with
  | some n => n
  | none => 0

/-- The `expire_duration` value computed at command.go:278-281: the result
of `time.ParseDuration`, which is 0 when parsing fails (an empty or
malformed field), passed here as the parse outcome `ped`. -/
def formExpireDuration (ped : Option Int) : Int :=
  match ped with
  | some d => d
  | none => 0

/-- The `expire_time` value computed at command.go:283-288.  `time.Parse`
yields a time whose clock is the parsed time of day, or the zero `time.Time`
(clock 00:00:00) on failure; `pet` is that clock in seconds, `none` on
failure.  Line 285 then unconditionally rebuilds the value as
`time.Date(now.Year, now.Month, now.Day, parsed clock)`, i.e. the creation
day's midnight plus the parsed clock — also when parsing failed. -/
def formExpireTime (nowDay : Int) (pet : Option Int) : Int :=
  nowDay * 86400 +
    (match pet with
     | some s => s
     | none => 0)

/-- The `exec` branch of `handleNewCommand` (command.go:293-323): the
`Command` built at lines 305-317, with `now` decomposed as
`nowDay * 86400 + nowSec`.  The id comes from `getCommandID`; the form
fields for files are split with `strings.Fields`, the command text with
`fieldsQuoteEscape`; the expiry fields come from the form parsing above. -/
def handleNewCommandExec (id : Int) (nowDay nowSec : Int)
    (cmdField sendField recvField : String) (record : Bool)
    (filter : List Client) (pec ped pet : Option Int) : Command :=
  { ID := id
    Typ := 0
    Record := record
    Command := fieldsQuoteEscape cmdField
    FilesSend := goFields sendField
    FilesRecv := goFields recvField
    LogLevel := ""
    LogPath := ""
    Filter := filter
    checkedIn := []
    ExpireClients := formExpireClients pec
    ExpireStarted := nowDay * 86400 + nowSec
    ExpireDuration := formExpireDuration ped
    ExpireTime := formExpireTime nowDay pet }

/-- The expiry policy exactly as claim C5 words it, for comparison with
`expireCheck`: count branch only when `ExpireClients > 0`, duration branch
only when `ExpireDuration > 0`, and absolute-time removal at
`now ≥ ExpireTime`.  Written from the claim, not from the source. -/
def claimExpireCheck (now : Int) (v : Command) : Bool :=
  if v.ExpireClients > 0 then
    decide ((v.checkedIn.length : Int) ≥ v.ExpireClients)
  else if v.ExpireDuration > 0 then
    decide (now - v.ExpireStarted > v.ExpireDuration)
  else if v.ExpireTime ≠ 0 then
    decide (now ≥ v.ExpireTime)
  else
    false

/-- The expiry policy the code actually implements, as a proposition: count
branch when `ExpireClients ≠ 0`, else duration branch when
`ExpireDuration ≠ 0`, else removal strictly after `ExpireTime`. -/
def amendedExpiry (now : Int) (v : Command) : Prop :=
  (v.ExpireClients ≠ 0 ∧ (v.checkedIn.length : Int) ≥ v.ExpireClients) ∨
  (v.ExpireClients = 0 ∧ v.ExpireDuration ≠ 0 ∧
    now - v.ExpireStarted > v.ExpireDuration) ∨
  (v.ExpireClients = 0 ∧ v.ExpireDuration = 0 ∧ v.ExpireTime ≠ 0 ∧
    now > v.ExpireTime)

/-- Two commands agree on every field except possibly `checkedIn`. -/
def eqExceptCheckedIn (c d : Command) : Prop :=
  c.ID = d.ID ∧ c.Typ = d.Typ ∧ c.Record = d.Record ∧
  c.Command = d.Command ∧ c.FilesSend = d.FilesSend ∧
  c.FilesRecv = d.FilesRecv ∧ c.LogLevel = d.LogLevel ∧
  c.LogPath = d.LogPath ∧ c.Filter = d.Filter ∧
  c.ExpireClients = d.ExpireClients ∧ c.ExpireStarted = d.ExpireStarted ∧
  c.ExpireDuration = d.ExpireDuration ∧ c.ExpireTime = d.ExpireTime

/-- A command with every field at its Go zero value, the base for the
concrete examples below. -/
def baseCommand : Command :=
  { ID := 0
    Typ := 0
    Record := false
    Command := []
    FilesSend := []
    FilesRecv := []
    LogLevel := ""
    LogPath := ""
    Filter := []
    checkedIn := []
    ExpireClients := 0
    ExpireStarted := 0
    ExpireDuration := 0
    ExpireTime := 0 }

/-- Counter never decreases under one allocator operation. -/
theorem le_stepCounter (s : Int) (op : AllocOp) : s ≤ stepCounter s op := by
  cases op with
  | alloc => simp [stepCounter, getCommandID]
  | reconcile x =>
    simp only [stepCounter, checkMaxCommandID]
    split <;> omega

/-- Counter never decreases under a run of allocator operations. -/
theorem le_runCounter (s : Int) (ops : List AllocOp) : s ≤ runCounter s ops := by
  induction ops generalizing s with
  | nil => simp [runCounter]
  | cons op rest ih =>
    have h1 : runCounter s (op :: rest) = runCounter (stepCounter s op) rest := rfl
    exact h1 ▸ le_trans (le_stepCounter s op) (ih (stepCounter s op))

/-- Running a concatenation of operation lists runs them in sequence. -/
theorem runCounter_append (s : Int) (l1 l2 : List AllocOp) :
    runCounter s (l1 ++ l2) = runCounter (runCounter s l1) l2 := by
  simp [runCounter, List.foldl_append]

/-- The counter after a longer prefix of a run is at least the counter
after a shorter prefix. -/
theorem runCounter_take_le (s : Int) (ops : List AllocOp) {i j : Nat}
    (h : i ≤ j) :
    runCounter s (ops.take i) ≤ runCounter s (ops.take j) := by
  have hsplit : ops.take j = ops.take i ++ (ops.drop i).take (j - i) := by
    rw [← List.take_add]
    congr 1
    omega
  rw [hsplit, runCounter_append]
  exact le_runCounter _ _

/-- Peeling the operation at position `i` off a run of the first `i + 1`
operations. -/
theorem runCounter_take_succ (s : Int) (ops : List AllocOp) (i : Nat)
    (op : AllocOp) (h : ops[i]? = some op) :
    runCounter s (ops.take (i + 1)) = stepCounter (runCounter s (ops.take i)) op := by
  rw [List.take_succ, h, runCounter_append]
  rfl

/-- Reconciling never lowers the counter. -/
theorem le_processInboundIDs (s : Int) (batch : List (Int × Command)) :
    s ≤ processInboundIDs s batch := by
  induction batch generalizing s with
  | nil => simp [processInboundIDs]
  | cons p rest ih =>
    have h1 : processInboundIDs s (p :: rest) =
        processInboundIDs (checkMaxCommandID p.1 s) rest := rfl
    have h2 : s ≤ checkMaxCommandID p.1 s := by
      simp only [checkMaxCommandID]
      split <;> omega
    exact h1 ▸ le_trans h2 (ih (checkMaxCommandID p.1 s))

/-- After reconciling an inbound batch, the counter is at least every id of
the batch. -/
theorem processInboundIDs_ge (s : Int) (batch : List (Int × Command))
    (k : Int) (v : Command) (h : (k, v) ∈ batch) :
    k ≤ processInboundIDs s batch := by
  induction batch generalizing s with
  | nil => cases h
  | cons p rest ih =>
    have h1 : processInboundIDs s (p :: rest) =
        processInboundIDs (checkMaxCommandID p.1 s) rest := rfl
    rcases List.mem_cons.mp h with heq | hmem
    · have hk : k ≤ checkMaxCommandID p.1 s := by
        have : p.1 = k := by rw [← heq]
        simp only [checkMaxCommandID, this]
        split <;> omega
      exact h1 ▸ le_trans hk (le_processInboundIDs _ _)
    · exact h1 ▸ ih (checkMaxCommandID p.1 s) hmem

/-- A merge never touches keys that do not occur in the inbound batch. -/
theorem updateCommandsMerge_not_mem (m : Ledger) (batch : List (Int × Command))
    (k : Int) (h : k ∉ batch.map Prod.fst) :
    updateCommandsMerge m batch k = m k := by
  induction batch generalizing m with
  | nil => rfl
  | cons p rest ih =>
    simp only [List.map_cons, List.mem_cons] at h
    push_neg at h
    have h1 : updateCommandsMerge m (p :: rest) =
        updateCommandsMerge (mergeInstall m p.1 p.2) rest := rfl
    rw [h1, ih _ h.2]
    simp [mergeInstall, h.1]

/-- What a merge installs at a key of the inbound batch: the inbound record,
with `checkedIn` taken from the existing ledger entry when there is one. -/
theorem updateCommandsMerge_mem (m : Ledger) (batch : List (Int × Command))
    (k : Int) (v : Command) (hnd : (batch.map Prod.fst).Nodup)
    (hmem : (k, v) ∈ batch) :
    updateCommandsMerge m batch k =
      some (match m k with
            | some w => { v with checkedIn := w.checkedIn }
            | none => v) := by
  induction batch generalizing m with
  | nil => cases hmem
  | cons p rest ih =>
    have h1 : updateCommandsMerge m (p :: rest) =
        updateCommandsMerge (mergeInstall m p.1 p.2) rest := rfl
    simp only [List.map_cons, List.nodup_cons] at hnd
    rcases List.mem_cons.mp hmem with heq | hmem'
    · have hp1 : p.1 = k := by rw [← heq]
      have hp2 : p.2 = v := by rw [← heq]
      have hknot : k ∉ rest.map Prod.fst := hp1 ▸ hnd.1
      rw [h1, updateCommandsMerge_not_mem _ _ _ hknot]
      rw [← hp1, ← hp2]
      simp only [mergeInstall, if_pos rfl]
    · have hkrest : k ∈ rest.map Prod.fst :=
        List.mem_map.mpr ⟨(k, v), hmem', rfl⟩
      have hne : k ≠ p.1 := fun hh => hnd.1 (hh ▸ hkrest)
      rw [h1, ih (mergeInstall m p.1 p.2) hnd.2 hmem']
      have hsame : mergeInstall m p.1 p.2 k = m k := by
        simp [mergeInstall, hne]
      rw [hsame]

/-- C3: for every inbound map (distinct keys, as a Go map) and every id `k`
in it, the merge loop of `updateCommandQueueProcessor` installs at `k` the
inbound record with only its `checkedIn` replaced by the pre-existing
entry's log when `k` was already in the ledger, and installs the inbound
record unmodified when `k` was not. -/
theorem c3_merge_preserves_checkins (m : Ledger) (batch : List (Int × Command))
    (k : Int) (v : Command) (hnd : (batch.map Prod.fst).Nodup)
    (hmem : (k, v) ∈ batch) :
    (∀ w, m k = some w →
      updateCommandsMerge m batch k = some { v with checkedIn := w.checkedIn }) ∧
    (m k = none → updateCommandsMerge m batch k = some v) := by
  constructor
  · intro w hw
    rw [updateCommandsMerge_mem m batch k v hnd hmem, hw]
  · intro hw
    rw [updateCommandsMerge_mem m batch k v hnd hmem, hw]

/-- The ledger entry already holding id 7 with two checkins, used to witness C3. -/
def cmd7old : Command := { baseCommand with ID := 7, checkedIn := [101, 102] }

/-- The inbound record for id 7 with an empty checkin log, used to witness C3. -/
def cmd7in : Command := { baseCommand with ID := 7, Command := ["x"], checkedIn := [] }

/-- A ledger holding only `cmd7old` at key 7, used to witness C3. -/
def mergeLedgerW : Ledger := fun j => if j = 7 then some cmd7old else none

/-- Witness for C3: merging an inbound map carrying id 7 with an empty
checkin log into a ledger where id 7 has checkins `[101, 102]` yields the
inbound record with `checkedIn = [101, 102]`. -/
theorem c3_merge_preserves_checkins_witness :
    ([(7, cmd7in)].map Prod.fst).Nodup ∧
    (7, cmd7in) ∈ [(7, cmd7in)] ∧
    mergeLedgerW 7 = some cmd7old ∧
    updateCommandsMerge mergeLedgerW [(7, cmd7in)] 7 =
      some { cmd7in with checkedIn := [101, 102] } :=
  ⟨by decide, by decide, rfl,
    (c3_merge_preserves_checkins mergeLedgerW [(7, cmd7in)] 7 cmd7in
      (by decide) (by decide)).1 cmd7old rfl⟩

/-- C4: in any finite sequence of `getCommandID` calls interleaved with
`checkMaxCommandID` calls, starting from the zero counter, the id returned
by an allocation is strictly greater than every id returned by an earlier
allocation and strictly greater than every value passed to an earlier
reconciliation. -/
theorem c4_allocator_strictly_increasing (ops : List AllocOp) (i j : Nat)
    (x : Int) (hij : i < j) (hj : ops[j]? = some .alloc) :
    (ops[i]? = some .alloc → allocRet ops i < allocRet ops j) ∧
    (ops[i]? = some (.reconcile x) → x < allocRet ops j) := by
  have hle : runCounter 0 (ops.take (i + 1)) ≤ runCounter 0 (ops.take j) :=
    runCounter_take_le 0 ops (by omega)
  constructor
  · intro hi
    have hstep := runCounter_take_succ 0 ops i .alloc hi
    simp only [stepCounter, getCommandID] at hstep
    simp only [allocRet, getCommandID]
    omega
  · intro hi
    have hstep := runCounter_take_succ 0 ops i (.reconcile x) hi
    simp only [stepCounter, checkMaxCommandID] at hstep
    simp only [allocRet, getCommandID]
    split at hstep <;> omega

/-- Witness for C4: in the run `reconcile 5; alloc; alloc` the first
allocation returns 6 (beating the reconciled 5) and the second returns 7
(beating the first). -/
theorem c4_allocator_strictly_increasing_witness :
    allocRet [AllocOp.reconcile 5, .alloc, .alloc] 1 = 6 ∧
    allocRet [AllocOp.reconcile 5, .alloc, .alloc] 2 = 7 ∧
    allocRet [AllocOp.reconcile 5, .alloc, .alloc] 1 <
      allocRet [AllocOp.reconcile 5, .alloc, .alloc] 2 ∧
    (5 : Int) < allocRet [AllocOp.reconcile 5, .alloc, .alloc] 1 :=
  ⟨by decide, by decide,
    (c4_allocator_strictly_increasing [AllocOp.reconcile 5, .alloc, .alloc]
      1 2 0 (by decide) (by decide)).1 (by decide),
    (c4_allocator_strictly_increasing [AllocOp.reconcile 5, .alloc, .alloc]
      0 1 5 (by decide) (by decide)).2 (by decide)⟩

/-- C2 (the reconciliation pass is modelled from the spec, see
`processInboundIDs`): after reconciling every id of an inbound batch, the
counter is at least every id of the batch, and any allocation performed
after any further sequence of allocator operations returns an id strictly
greater than every id of the batch. -/
theorem c2_merge_reconciles_before_alloc (s : Int)
    (batch : List (Int × Command)) (k : Int) (v : Command)
    (ops : List AllocOp) (i : Nat) (hmem : (k, v) ∈ batch)
    (hi : ops[i]? = some .alloc) :
    k ≤ processInboundIDs s batch ∧
    k < (getCommandID (runCounter (processInboundIDs s batch) (ops.take i))).1 := by
  have h1 := processInboundIDs_ge s batch k v hmem
  have h2 := le_runCounter (processInboundIDs s batch) (ops.take i)
  simp only [getCommandID]
  omega

/-- Witness for C2: merging a batch holding id 5 from counter 0 leaves the
counter at 5, and an allocation right after returns 6 > 5. -/
theorem c2_merge_reconciles_before_alloc_witness :
    (5, baseCommand) ∈ [((5 : Int), baseCommand)] ∧
    processInboundIDs 0 [((5 : Int), baseCommand)] = 5 ∧
    (5 : Int) ≤ processInboundIDs 0 [((5 : Int), baseCommand)] ∧
    (5 : Int) <
      (getCommandID (runCounter (processInboundIDs 0 [((5 : Int), baseCommand)])
        ([AllocOp.alloc].take 0))).1 :=
  ⟨by decide, by decide,
    (c2_merge_reconciles_before_alloc 0 [((5 : Int), baseCommand)] 5 baseCommand
      [AllocOp.alloc] 0 (by decide) (by decide)).1,
    (c2_merge_reconciles_before_alloc 0 [((5 : Int), baseCommand)] 5 baseCommand
      [AllocOp.alloc] 0 (by decide) (by decide)).2⟩

/-- The reaper's per-command test agrees with the amended expiry policy. -/
theorem expireCheck_iff_amendedExpiry (now : Int) (v : Command) :
    expireCheck now v = true ↔ amendedExpiry now v := by
  unfold expireCheck amendedExpiry
  split_ifs with h1 h2 h3 <;> simp_all

/-- A command whose only expiry setting is the absolute time 100, for the
C5 counterexample: at `now = 100` the claim's `now ≥ ExpireTime` demands
removal but `time.After` is strict, so the reaper keeps it. -/
def cmdTimeBoundary : Command := { baseCommand with ID := 1, ExpireTime := 100 }

/-- A command with `ExpireClients = -1` and `ExpireDuration = 5`, for the
C5 counterexample: the code's `ExpireClients != 0` test fires on the
negative count (0 checkins ≥ -1) and removes it, while the claim's
`ExpireClients > 0` branch is skipped and its duration branch keeps it. -/
def cmdNegClients : Command :=
  { baseCommand with ID := 1, ExpireClients := -1, ExpireDuration := 5 }

/-- Counterexample for C5: the tick disagrees with the claim's policy in
both directions.  At `now = 100` the claim's policy (`claimExpireCheck`,
written from the claim's words) removes `cmdTimeBoundary` but the tick
keeps it; at `now = 3` the claim's policy keeps `cmdNegClients` but the
tick removes it. -/
theorem c5_expiry_policy_counterexample :
    claimExpireCheck 100 cmdTimeBoundary = true ∧
    expireReaperTick 100 (fun j => if j = 1 then some cmdTimeBoundary else none) 1 =
      some cmdTimeBoundary ∧
    claimExpireCheck 3 cmdNegClients = false ∧
    expireReaperTick 3 (fun j => if j = 1 then some cmdNegClients else none) 1 =
      none := by
  decide

/-- C5 as amended: a tick of the reaper removes a ledger entry exactly when
the code's priority-ordered policy fires — the count branch when
`ExpireClients ≠ 0` (removal at `len(checkedIn) ≥ ExpireClients`), else the
duration branch when `ExpireDuration ≠ 0` (removal at
`now - ExpireStarted > ExpireDuration`), else the absolute-time branch when
`ExpireTime` is set (removal at `now > ExpireTime`, strictly); a command
with none of the three set is never removed, and entries the policy does
not fire on are kept unchanged. -/
theorem c5_expiry_tick_amended (now : Int) (m : Ledger) (k : Int)
    (v : Command) (h : m k = some v) :
    (expireReaperTick now m k = none ↔ amendedExpiry now v) ∧
    (¬ amendedExpiry now v → expireReaperTick now m k = some v) := by
  have htick : expireReaperTick now m k =
      if expireCheck now v then none else some v := by
    simp [expireReaperTick, h]
  by_cases hc : expireCheck now v = true
  · have ha := (expireCheck_iff_amendedExpiry now v).mp hc
    rw [htick, hc]
    simp [ha]
  · have ha : ¬ amendedExpiry now v :=
      fun hx => hc ((expireCheck_iff_amendedExpiry now v).mpr hx)
    simp only [Bool.not_eq_true] at hc
    rw [htick, hc]
    simp [ha]

/-- A command expiring after two checkins that has received them, used to
witness C5. -/
def cmdTwoCheckins : Command :=
  { baseCommand with ID := 1, ExpireClients := 2, checkedIn := [101, 102] }

/-- Witness for C5 (amended): a command with `ExpireClients = 2` and two
checkins satisfies the policy and one tick removes it. -/
theorem c5_expiry_tick_amended_witness :
    (fun j => if j = 1 then some cmdTwoCheckins else none : Ledger) 1 =
      some cmdTwoCheckins ∧
    amendedExpiry 0 cmdTwoCheckins ∧
    expireReaperTick 0 (fun j => if j = 1 then some cmdTwoCheckins else none) 1 =
      none :=
  ⟨rfl, Or.inl ⟨by decide, by decide⟩,
    ((c5_expiry_tick_amended 0
      (fun j => if j = 1 then some cmdTwoCheckins else none) 1 cmdTwoCheckins
      rfl).1).mpr (Or.inl ⟨by decide, by decide⟩)⟩

/-- C6: resubmitting a known id installs, under the freshly allocated id
`counter + 1`, a command whose `Typ`, `Record`, `Command`, `FilesSend`,
`FilesRecv`, `LogLevel`, `LogPath` and `Filter` equal the original's, whose
checkin log is empty and whose four expiry fields are all unset, leaving
every other key alone; resubmitting an unknown id returns the not-found
message and leaves the ledger and the counter unchanged. -/
theorem c6_commandResubmit_fresh_run (m : Ledger) (counter id : Int) :
    (∀ c, m id = some c →
      (commandResubmit m counter id).2.1 = counter + 1 ∧
      (commandResubmit m counter id).1 (counter + 1) =
        some { ID := counter + 1, Typ := c.Typ, Record := c.Record,
               Command := c.Command, FilesSend := c.FilesSend,
               FilesRecv := c.FilesRecv, LogLevel := c.LogLevel,
               LogPath := c.LogPath, Filter := c.Filter, checkedIn := [],
               ExpireClients := 0, ExpireStarted := 0, ExpireDuration := 0,
               ExpireTime := 0 } ∧
      (∀ j, j ≠ counter + 1 → (commandResubmit m counter id).1 j = m j)) ∧
    (m id = none →
      commandResubmit m counter id =
        (m, counter, "command " ++ toString id ++ " not found")) := by
  constructor
  · intro c hc
    refine ⟨?_, ?_, ?_⟩
    · simp [commandResubmit, hc, getCommandID]
    · simp [commandResubmit, hc, getCommandID]
    · intro j hj
      simp [commandResubmit, hc, getCommandID, hj]
  · intro hc
    simp [commandResubmit, hc]

/-- The existing command with id 5 that gets resubmitted in the C6 witness:
an Execute command with arguments, checkins and a count-based expiry. -/
def cmd5ex : Command :=
  { baseCommand with
      ID := 5
      Command := ["echo", "hi"]
      FilesSend := ["f"]
      checkedIn := [9]
      ExpireClients := 3
      ExpireStarted := 70
      ExpireDuration := 4
      ExpireTime := 90 }

/-- A ledger holding only `cmd5ex` at key 5, used to witness C6. -/
def resubLedgerW : Ledger := fun j => if j = 5 then some cmd5ex else none

/-- Witness for C6: resubmitting id 5 at counter 7 mints id 8 and installs
a copy with an empty checkin log and no expiry settings; resubmitting the
unknown id 4 reports not-found and changes nothing. -/
theorem c6_commandResubmit_fresh_run_witness :
    resubLedgerW 5 = some cmd5ex ∧
    (commandResubmit resubLedgerW 7 5).2.1 = 7 + 1 ∧
    (commandResubmit resubLedgerW 7 5).1 (7 + 1) =
      some { ID := 7 + 1, Typ := cmd5ex.Typ, Record := cmd5ex.Record,
             Command := cmd5ex.Command, FilesSend := cmd5ex.FilesSend,
             FilesRecv := cmd5ex.FilesRecv, LogLevel := cmd5ex.LogLevel,
             LogPath := cmd5ex.LogPath, Filter := cmd5ex.Filter,
             checkedIn := [], ExpireClients := 0, ExpireStarted := 0,
             ExpireDuration := 0, ExpireTime := 0 } ∧
    resubLedgerW 4 = none ∧
    commandResubmit resubLedgerW 7 4 =
      (resubLedgerW, 7, "command " ++ toString (4 : Int) ++ " not found") :=
  ⟨rfl,
    ((c6_commandResubmit_fresh_run resubLedgerW 7 5).1 cmd5ex rfl).1,
    ((c6_commandResubmit_fresh_run resubLedgerW 7 5).1 cmd5ex rfl).2.1,
    rfl,
    (c6_commandResubmit_fresh_run resubLedgerW 7 4).2 rfl⟩

/-- C7: a checkin for an id present in the ledger appends the client id to
that command's `checkedIn` log and changes no other key; a checkin for an
absent id leaves the whole ledger exactly as it was. -/
theorem c7_commandCheckIn_append_or_noop (m : Ledger) (id cid : Int) :
    (∀ c, m id = some c →
      commandCheckIn m id cid id =
        some { c with checkedIn := c.checkedIn ++ [cid] } ∧
      ∀ j, j ≠ id → commandCheckIn m id cid j = m j) ∧
    (m id = none → commandCheckIn m id cid = m) := by
  constructor
  · intro c hc
    constructor
    · simp [commandCheckIn, hc]
    · intro j hj
      simp [commandCheckIn, hc, hj]
  · intro hc
    simp [commandCheckIn, hc]

/-- The command at key 3 that receives a checkin in the C7 witness. -/
def cmd3w : Command := { baseCommand with ID := 3, checkedIn := [7] }

/-- A ledger holding only `cmd3w` at key 3, used to witness C7. -/
def checkinLedgerW : Ledger := fun j => if j = 3 then some cmd3w else none

/-- Witness for C7: a checkin on the present id 3 appends client 42 to its
log, and a checkin on the absent id 9 leaves the ledger untouched. -/
theorem c7_commandCheckIn_append_or_noop_witness :
    checkinLedgerW 3 = some cmd3w ∧
    commandCheckIn checkinLedgerW 3 42 3 =
      some { cmd3w with checkedIn := cmd3w.checkedIn ++ [42] } ∧
    checkinLedgerW 9 = none ∧
    commandCheckIn checkinLedgerW 9 42 = checkinLedgerW :=
  ⟨rfl,
    ((c7_commandCheckIn_append_or_noop checkinLedgerW 3 42).1 cmd3w rfl).1,
    rfl,
    (c7_commandCheckIn_append_or_noop checkinLedgerW 9 42).2 rfl⟩

/-- Commands agreeing on everything but `checkedIn` have the same exported
projection. -/
theorem publicPart_eq_of_eqExceptCheckedIn (c d : Command)
    (h : eqExceptCheckedIn c d) : publicPart c = publicPart d := by
  obtain ⟨h1, h2, h3, h4, h5, h6, h7, h8, h9, h10, h11, h12, h13⟩ := h
  simp [publicPart, h1, h2, h3, h4, h5, h6, h7, h8, h9, h10, h11, h12, h13]

/-- C8: the encoder's output is independent of the `checkedIn` logs — two
ledgers that are identical except for the `checkedIn` field of any commands
encode (and hence decode) to the same command map; `checkedIn` is never
serialized to peers. -/
theorem c8_encode_ignores_checkins (m1 m2 : Ledger)
    (h : ∀ k, (m1 k = none ∧ m2 k = none) ∨
      ∃ c d, m1 k = some c ∧ m2 k = some d ∧ eqExceptCheckedIn c d) :
    ∀ k, encodeCommands m1 k = encodeCommands m2 k := by
  intro k
  rcases h k with ⟨h1, h2⟩ | ⟨c, d, h1, h2, hcd⟩
  · simp [encodeCommands, h1, h2]
  · simp [encodeCommands, h1, h2, publicPart_eq_of_eqExceptCheckedIn c d hcd]

/-- The command at key 1 of the first ledger in the C8 witness, with two
checkins recorded. -/
def cmdEncA : Command :=
  { baseCommand with ID := 1, Command := ["ls"], checkedIn := [101, 102] }

/-- The command at key 1 of the second ledger in the C8 witness: `cmdEncA`
with its checkin log emptied. -/
def cmdEncB : Command := { cmdEncA with checkedIn := [] }

/-- The first ledger of the C8 witness. -/
def encLedgerA : Ledger := fun j => if j = 1 then some cmdEncA else none

/-- The second ledger of the C8 witness, differing only in `checkedIn`. -/
def encLedgerB : Ledger := fun j => if j = 1 then some cmdEncB else none

/-- Witness for C8: two concrete ledgers differing only in the checkin log
at key 1 have identical encodings everywhere. -/
theorem c8_encode_ignores_checkins_witness :
    (∀ k, (encLedgerA k = none ∧ encLedgerB k = none) ∨
      ∃ c d, encLedgerA k = some c ∧ encLedgerB k = some d ∧
        eqExceptCheckedIn c d) ∧
    (∀ k, encodeCommands encLedgerA k = encodeCommands encLedgerB k) := by
  have hh : ∀ k, (encLedgerA k = none ∧ encLedgerB k = none) ∨
      ∃ c d, encLedgerA k = some c ∧ encLedgerB k = some d ∧
        eqExceptCheckedIn c d := by
    intro k
    by_cases hk : k = 1
    · subst hk
      exact Or.inr ⟨cmdEncA, cmdEncB, rfl, rfl, by
        refine ⟨rfl, rfl, rfl, rfl, rfl, rfl, rfl, rfl, rfl, rfl, rfl, rfl, rfl⟩⟩
    · exact Or.inl ⟨by simp [encLedgerA, hk], by simp [encLedgerB, hk]⟩
  exact ⟨hh, c8_encode_ignores_checkins encLedgerA encLedgerB hh⟩

/-- C9: `fieldsQuoteEscape` splits on whitespace while grouping quoted
substrings into single arguments — the two examples from the spec. -/
theorem c9_fieldsQuoteEscape_examples :
    fieldsQuoteEscape "a b \"c d\"" = ["a", "b", "c d"] ∧
    fieldsQuoteEscape "a b c" = ["a", "b", "c"] := by
  decide

/-- In trace mode, if no remaining field ends with a quote, the accumulated
quoted text and every remaining field are discarded. -/
theorem fqeAux_trace_discards (temp : String) (rest : List String)
    (h : ∀ w ∈ rest, endsWithQuote w = false) :
    fqeAux true temp rest = [] := by
  induction rest generalizing temp with
  | nil => rfl
  | cons v vs ih =>
    have hv : endsWithQuote v = false := h v (List.mem_cons_self v vs)
    simp only [fqeAux, hv, Bool.false_eq_true, if_false]
    exact ih (temp ++ " " ++ v) (fun w hw => h w (List.mem_cons_of_mem v hw))

/-- Out of trace mode, a run of fields none of which starts with a quote is
emitted verbatim and processing continues behind it. -/
theorem fqeAux_emits_plain (pre : List String) (temp : String)
    (l : List String) (h : ∀ w ∈ pre, startsWithQuote w = false) :
    fqeAux false temp (pre ++ l) = pre ++ fqeAux false temp l := by
  induction pre generalizing temp with
  | nil => rfl
  | cons v vs ih =>
    have hv : startsWithQuote v = false := h v (List.mem_cons_self v vs)
    have htail := ih temp (fun w hw => h w (List.mem_cons_of_mem v hw))
    simp only [List.cons_append, fqeAux, hv, Bool.false_eq_true, if_false]
    exact congrArg (List.cons v) htail

/-- C10: once a whitespace-separated field beginning with a double quote is
reached with no later field ending in a double quote, `fieldsQuoteEscape`
drops the quoted text and everything after it, returning only the plain
fields before the opening quote; in particular a one-word quoted field such
as `"hi"` opens a run that is never closed and is dropped with all
remaining fields. -/
theorem c10_unclosed_quote_drops_tail (input : String) (pre : List String)
    (v : String) (rest : List String)
    (hsplit : goFields input = pre ++ v :: rest)
    (hpre : ∀ w ∈ pre, startsWithQuote w = false)
    (hv : startsWithQuote v = true)
    (hrest : ∀ w ∈ rest, endsWithQuote w = false) :
    fieldsQuoteEscape input = pre := by
  unfold fieldsQuoteEscape
  rw [hsplit, fqeAux_emits_plain pre "" (v :: rest) hpre]
  simp only [fqeAux, hv, if_true]
  rw [fqeAux_trace_discards (dropFirstChar v) rest hrest]
  exact List.append_nil pre

/-- Witness for C10: in `a "hi" b c` the one-word quoted field `"hi"` both
begins and ends with a quote, no later field ends with a quote, and the
result keeps only `a`. -/
theorem c10_unclosed_quote_drops_tail_witness :
    goFields "a \"hi\" b c" = ["a"] ++ "\"hi\"" :: ["b", "c"] ∧
    (∀ w ∈ ["a"], startsWithQuote w = false) ∧
    startsWithQuote "\"hi\"" = true ∧
    endsWithQuote "\"hi\"" = true ∧
    (∀ w ∈ ["b", "c"], endsWithQuote w = false) ∧
    fieldsQuoteEscape "a \"hi\" b c" = ["a"] :=
  ⟨by decide, by decide, by decide, by decide, by decide,
    c10_unclosed_quote_drops_tail "a \"hi\" b c" ["a"] "\"hi\"" ["b", "c"]
      (by decide) (by decide) (by decide) (by decide)⟩

/-- The command built by `handleNewCommandExec` for a request whose three
expiry form fields are all blank (every parse fails), created at second
36000 (10:00:00) of day 738000. -/
def blankExpiryCommand : Command :=
  handleNewCommandExec 1 738000 36000 "echo hi" "" "" false [] none none none

/-- C1 (refuting the claim on the code): for a new exec command whose
`expire_time` field is empty (or fails to parse), the code does not leave
absolute-time expiry disabled.  `time.Parse` pairs the failure with the
zero time, whose clock reads 00:00:00, and line 285 unconditionally
rebuilds `ExpireTime` as `time.Date` of the creation day at that clock —
midnight of the creation day, which is not the zero time.  With the other
two expiry fields also blank (zero), the reaper's absolute-time branch
fires at its next tick after creation (here 10 seconds later) and deletes
the command, while the rest of the command (`Command`, no expiry count, no
duration) was accepted as usual. -/
theorem c1_blank_expire_time_is_reaped :
    blankExpiryCommand.Command = ["echo", "hi"] ∧
    blankExpiryCommand.ExpireClients = 0 ∧
    blankExpiryCommand.ExpireDuration = 0 ∧
    blankExpiryCommand.ExpireTime = 738000 * 86400 ∧
    ¬ blankExpiryCommand.ExpireTime = 0 ∧
    expireReaperTick (738000 * 86400 + 36010)
      (fun j => if j = 1 then some blankExpiryCommand else none) 1 = none := by
  decide
